import Mathlib

/-!
Verification of the png2ico conversion core (src/main.py).

The development shallowly embeds the two classes that carry the program's
logic: `ImageConverter.convert_png_to_ico` / `_resize_image` (single-file
conversion and the resize-to-square transform, src/main.py lines 71-167)
and `ImageConverter.batch_convert` (batch orchestration, lines 169-234).

Modelling conventions:
- Python floats are modelled twice.  Where the claim's content is the
  float computation itself (the scaled-dimension formula of claim C1),
  the bit-accurate model `FP` embeds IEEE-754 binary64 arithmetic
  (round-to-nearest-even, normal range) on mantissa/exponent pairs, and
  `resizeDimsFloat` is the faithful embedding of the code's formula.
  Elsewhere `resizeDims` idealizes the same formula by exact rationals;
  the idealization can differ from the double-precision program by one
  unit in the last place where the double quotient straddles an integer
  (for example a 128×93 source at S = 128: the program computes height
  92, the exact-rational value is 93), and the theorems stated over
  `resizeDims` assert only conclusions that are insensitive to that
  difference (canvas shape and mode, transparency outside the composite,
  height strictly below S for wide sources, padding balance).  Python
  `int()` applied to a nonnegative value is floor/truncation in both
  models.
- Image dimensions and icon sizes are naturals; `0` remains representable
  and is the degenerate value relevant to the size-validation claims.
- The imaging library (PIL) is an external collaborator whose code is not
  part of the repository; its primitives (`Image.new`, `Image.resize`,
  `Image.paste`, `Image.convert`) are modelled from the spec's description
  of them (spec sections 4.1 and 6).  The exact resampling kernel and the
  exact alpha-blend arithmetic are not semantically load-bearing (spec 4.1
  step 3); no theorem below inspects resampled or blended pixel values.
- The filesystem is a map from paths to file entries, threaded through the
  conversion function; exceptions raised and caught inside
  `convert_png_to_ico` are modelled by the early-return branches of its
  total embedding.
-/

namespace Png2Ico

/-- An RGBA pixel (channel values as naturals). -/
structure Pixel where
  r : Nat
  g : Nat
  b : Nat
  a : Nat
deriving DecidableEq, Repr

/-- The fully transparent pixel `(0, 0, 0, 0)` used for the square canvas
background (src/main.py line 160). -/
def Pixel.clear : Pixel := ⟨0, 0, 0, 0⟩

/-- PIL pixel-channel modes that occur in the program. -/
inductive Mode where
  | RGBA
  | RGB
  | P
  | L
  | LA
deriving DecidableEq, Repr

/-- A decoded raster image: dimensions, channel mode, and pixel contents
(spec section 3, RasterImage). -/
structure Img where
  width : Nat
  height : Nat
  mode : Mode
  px : Nat → Nat → Pixel

/-- Modelled from the spec: the external imaging library's canvas
allocation `Image.new(mode, (w, h), color)` (spec 4.1 step 4), every pixel
initialized to the given color. -/
def Img.new (mode : Mode) (w h : Nat) (c : Pixel) : Img :=
  ⟨w, h, mode, fun _ _ => c⟩

/-- Modelled from the spec: the external imaging library's resample
primitive `img.resize((w, h), LANCZOS)` (spec 4.1 step 3 and section 6).
It produces a raster of exactly the requested dimensions in the source's
mode; the resampling kernel is abstracted to coordinate sampling, since
per spec 4.1 step 3 the exact filter is not semantically load-bearing and
no claim below inspects resampled pixel values. -/
def Img.resizeTo (img : Img) (w h : Nat) : Img :=
  ⟨w, h, img.mode, fun x y => img.px (x * img.width / w) (y * img.height / h)⟩

/-- Modelled from the spec: the external imaging library's
`img.convert('RGBA')` (spec 4.1 step 7): same dimensions, RGBA mode, with
an opaque alpha channel synthesized for modes that lack one. -/
def Img.convertRGBA (img : Img) : Img :=
  ⟨img.width, img.height, Mode.RGBA, fun x y =>
    let p := img.px x y
    if img.mode = Mode.RGBA ∨ img.mode = Mode.LA then p
    else ⟨p.r, p.g, p.b, 255⟩⟩

/-- One channel of alpha compositing (source over destination). -/
def blendChannel (s d a : Nat) : Nat := (s * a + d * (255 - a)) / 255

/-- Modelled from the spec: alpha compositing of a source pixel over a
destination pixel, "using its own alpha channel as the paste mask" (spec
4.1 step 6).  The exact arithmetic is not load-bearing for any claim. -/
def Pixel.blend (dst src : Pixel) : Pixel :=
  ⟨blendChannel src.r dst.r src.a, blendChannel src.g dst.g src.a,
   blendChannel src.b dst.b src.a, blendChannel 255 dst.a src.a⟩

/-- Modelled from the spec: the external imaging library's
`canvas.paste(src, (x0, y0), src)` (spec 4.1 step 6): pixels inside the
pasted rectangle are composited through the source's alpha mask, pixels
outside it are left untouched. -/
def Img.paste (canvas src : Img) (x0 y0 : Nat) : Img :=
  ⟨canvas.width, canvas.height, canvas.mode, fun x y =>
    if x0 ≤ x ∧ x < x0 + src.width ∧ y0 ≤ y ∧ y < y0 + src.height then
      Pixel.blend (canvas.px x y) (src.px (x - x0) (y - y0))
    else canvas.px x y⟩

/-- The scaled-dimension computation of `ImageConverter._resize_image`
(src/main.py lines 144-154), idealized over exact rationals:
`aspect_ratio = width / height`; when it exceeds 1 the width is pinned to
`size` and the height is `int(size / aspect_ratio)` (truncation =
`Nat.floor` on nonnegatives), otherwise the height is pinned and the
width is `int(size * aspect_ratio)`.  This is an idealization of the
program's double-precision arithmetic: at inputs where the double
quotient straddles an integer (for example W = 128, H = 93, S = 128) the
program computes one less than the exact-rational value.  The
bit-accurate embedding is `resizeDimsFloat` below; the theorems stated
over `resizeDims` assert only facts that hold under either semantics. -/
def resizeDims (W H size : Nat) : Nat × Nat :=
  if 1 < (W : ℚ) / (H : ℚ) then
    (size, ⌊(size : ℚ) / ((W : ℚ) / (H : ℚ))⌋₊)
  else
    (⌊(size : ℚ) * ((W : ℚ) / (H : ℚ))⌋₊, size)

/-! ### Bit-accurate IEEE-754 binary64 model

Python evaluates the dimension formula in double precision: both integer
operands are converted exactly to doubles (image dimensions are far below
2^53), each division or multiplication rounds its exact result to the
nearest representable double (ties to even), and `int()` truncates toward
zero.  `FP` represents a finite nonnegative double as a mantissa/exponent
pair (value `m * 2^e`, with `2^52 ≤ m < 2^53` for nonzero normalized
values); exponents are unbounded, which coincides with IEEE-754 behavior
in the normal range exercised here (no overflow, underflow or subnormals
for raster dimensions and icon sizes).  All operations are integer
arithmetic, so concrete instances reduce by `decide`. -/

/-- A finite nonnegative binary64 value `m * 2^e`. -/
structure FP where
  m : Nat
  e : Int
deriving DecidableEq, Repr

/-- Shift a positive mantissa up until it is normalized (`≥ 2^52`),
decrementing the exponent; fuel-driven (52 shifts suffice for any
positive input, 64 provided). -/
def normUp : Nat → Nat → Int → Nat × Int
  | 0, m, e => (m, e)
  | fuel + 1, m, e =>
      if m < 2 ^ 52 then normUp fuel (2 * m) (e - 1) else (m, e)

/-- Exact conversion of a natural number to a double (exact and
normalized for `0 < n < 2^53`, which covers every raster dimension and
icon size the program can see). -/
def FP.ofNat (n : Nat) : FP :=
  if n = 0 then ⟨0, 0⟩ else ⟨(normUp 64 n 0).1, (normUp 64 n 0).2⟩

/-- IEEE-754 binary64 division of normalized nonzero operands: the exact
quotient mantissa is computed to 53 bits with a remainder, rounded to
nearest (ties to even), and renormalized if rounding carries. -/
def FP.div (a b : FP) : FP :=
  if a.m = 0 ∨ b.m = 0 then ⟨0, 0⟩
  else
    let shift : Nat := if b.m ≤ a.m then 52 else 53
    let n := a.m * 2 ^ shift
    let q := n / b.m
    let r := n % b.m
    let q2 := if 2 * r < b.m then q
              else if b.m < 2 * r then q + 1
              else if q % 2 = 0 then q else q + 1
    let e2 := a.e - b.e - shift
    if q2 = 2 ^ 53 then ⟨2 ^ 52, e2 + 1⟩ else ⟨q2, e2⟩

/-- IEEE-754 binary64 multiplication of normalized nonzero operands: the
exact product (104-106 bits) is rounded to a 53-bit mantissa, ties to
even, renormalized if rounding carries. -/
def FP.mul (a b : FP) : FP :=
  if a.m = 0 ∨ b.m = 0 then ⟨0, 0⟩
  else
    let p := a.m * b.m
    let shift : Nat := if p < 2 ^ 105 then 52 else 53
    let q := p / 2 ^ shift
    let r := p % 2 ^ shift
    let q2 := if 2 * r < 2 ^ shift then q
              else if 2 ^ shift < 2 * r then q + 1
              else if q % 2 = 0 then q else q + 1
    let e2 := a.e + b.e + shift
    if q2 = 2 ^ 53 then ⟨2 ^ 52, e2 + 1⟩ else ⟨q2, e2⟩

/-- The comparison `aspect_ratio > 1` (src/main.py line 147), exact on
doubles. -/
def FP.gtOne (x : FP) : Bool :=
  match x.e with
  | Int.ofNat 0 => decide (1 < x.m)
  | Int.ofNat (_ + 1) => decide (1 ≤ x.m)
  | Int.negSucc k => decide (2 ^ (k + 1) < x.m)

/-- Python `int()` on a nonnegative double: truncation toward zero. -/
def FP.truncNat (x : FP) : Nat :=
  match x.e with
  | Int.ofNat k => x.m * 2 ^ k
  | Int.negSucc k => x.m / 2 ^ (k + 1)

/-- Modelled from the spec: nearest-integer rounding of a nonnegative
double, as the spec's `round` (spec 4.1 step 2).  Implemented as
round-half-up; no instance used below falls on a tie, and every
nearest-rounding convention dominates truncation. -/
def FP.roundNat (x : FP) : Nat :=
  match x.e with
  | Int.ofNat k => x.m * 2 ^ k
  | Int.negSucc k => (x.m + 2 ^ k) / 2 ^ (k + 1)

/-- The scaled-dimension computation of `ImageConverter._resize_image`
(src/main.py lines 144-154), bit-accurate: `aspect_ratio` is the double
quotient of the dimensions, the branch compares it to 1 exactly, and the
minor dimension is `int()` of the double quotient (or product),
truncating toward zero. -/
def resizeDimsFloat (W H size : Nat) : Nat × Nat :=
  if (FP.div (FP.ofNat W) (FP.ofNat H)).gtOne then
    (size, (FP.div (FP.ofNat size) (FP.div (FP.ofNat W) (FP.ofNat H))).truncNat)
  else
    ((FP.mul (FP.ofNat size) (FP.div (FP.ofNat W) (FP.ofNat H))).truncNat, size)

/-- The scaled-dimension formula as the spec's words state it (spec 4.1
step 2): identical double-precision pipeline, but with nearest-integer
rounding of the final quotient or product in place of the code's
truncation; kept only to compare against `resizeDimsFloat`. -/
def resizeDimsFloatRounded (W H size : Nat) : Nat × Nat :=
  if (FP.div (FP.ofNat W) (FP.ofNat H)).gtOne then
    (size, (FP.div (FP.ofNat size) (FP.div (FP.ofNat W) (FP.ofNat H))).roundNat)
  else
    ((FP.mul (FP.ofNat size) (FP.div (FP.ofNat W) (FP.ofNat H))).roundNat, size)

/-- The transform `ImageConverter._resize_image` (src/main.py lines
133-167): compute
the scaled dimensions, resample the source to them, allocate a fully
transparent square RGBA canvas, and composite the resampled image
centered onto it. -/
def resize_image (img : Img) (size : Nat) : Img :=
  let nd := resizeDims img.width img.height size
  let resized := img.resizeTo nd.1 nd.2
  let square_img := Img.new Mode.RGBA size size Pixel.clear
  let x_offset := (size - nd.1) / 2
  let y_offset := (size - nd.2) / 2
  square_img.paste resized x_offset y_offset

/-- The RGBA coercion performed by `convert_png_to_ico` before resizing
(src/main.py lines 96-97). -/
def ensureRGBA (img : Img) : Img :=
  if img.mode ≠ Mode.RGBA then img.convertRGBA else img

/-- The rectangle of the square canvas covered by the composited image in
`resize_image`: offsets as computed on src/main.py lines 163-164, extents
equal to the scaled dimensions. -/
abbrev pasteRegion (S nw nh x y : Nat) : Prop :=
  (S - nw) / 2 ≤ x ∧ x < (S - nw) / 2 + nw ∧
    (S - nh) / 2 ≤ y ∧ y < (S - nh) / 2 + nh

/-! ## Single-file conversion (`ImageConverter.convert_png_to_ico`) -/

/-- A file on disk, as the conversion code can observe it through the
imaging library: a decodable image carrying its format tag (src/main.py
line 91 checks `img.format`), an undecodable file (`Image.open` raises,
caught by the handler on lines 129-131), or an ICO container previously
written by the converter (src/main.py lines 120-124). -/
inductive Entry where
  | image (format : String) (img : Img)
  | nonImage (data : List Nat)
  | ico (frames : List Img)

/-- The filesystem: a map from paths to file entries. -/
abbrev FS := String → Option Entry

/-- Python `pathlib.Path(p).stem` (src/main.py line 101): the final path
component with its last extension removed.  This approximation diverges
from `pathlib` on dotfile, trailing-dot and trailing-slash names (for
example `.bashrc`); no claim depends on the default output name — every
theorem below either supplies an explicit output path or quantifies over
`output_path`. -/
def pathStem (p : String) : String :=
  let base := (p.splitOn "/").getLastD p
  let parts := base.splitOn "."
  if parts.length ≤ 1 then base else String.intercalate "." parts.dropLast

/-- The output path resolved by `convert_png_to_ico` (src/main.py lines
100-102): the supplied path, or the input's stem with an `.ico`
extension. -/
def resolvedOut (input_path : String) (output_path : Option String) : String :=
  match output_path with
  | some o => o
  | none => pathStem input_path ++ ".ico"

/-- Outcome of one run of `convert_png_to_ico`: the returned boolean, the
filesystem afterwards, and — as instrumentation for the size-validation
claims — the list of sizes that were passed to `resize_image`
(src/main.py lines 115-117). -/
structure ConvOut where
  ok : Bool
  fs : FS
  resizedSizes : List Nat

/-- The function `ImageConverter.convert_png_to_ico` (src/main.py lines
71-131) as a
total state-passing function.  Every path on which the Python code raises
and catches (lines 129-131) or returns `False` early is an early branch
returning `ok := false` with the filesystem unchanged; `saveOk := false`
injects an I/O failure of the underlying ICO save (lines 120-124).  The
default size list (`self.config.get_icon_sizes()`, src/main.py lines
47-50) is the configured list parsed without any positivity filtering,
passed here as `cfg_sizes`. -/
def convert_png_to_ico (fs : FS) (saveOk : Bool) (cfg_sizes : List Nat)
    (input_path : String) (output_path : Option String)
    (sizes : Option (List Nat)) (overwrite : Bool) : ConvOut :=
  match fs input_path with
  | none => ⟨false, fs, []⟩
  | some (Entry.nonImage _) => ⟨false, fs, []⟩
  | some (Entry.ico _) => ⟨false, fs, []⟩
  | some (Entry.image fmt img) =>
    if fmt ≠ "PNG" then ⟨false, fs, []⟩
    else
      let img2 := ensureRGBA img
      let out := resolvedOut input_path output_path
      if (fs out).isSome ∧ overwrite = false then ⟨false, fs, []⟩
      else
        let szs := sizes.getD cfg_sizes
        let icon_images := szs.map (fun s => resize_image img2 s)
        if saveOk then
          ⟨true, fun p => if p = out then some (Entry.ico icon_images) else fs p, szs⟩
        else ⟨false, fs, szs⟩

/-! ## Batch conversion (`ImageConverter.batch_convert`) -/

/-- What one iteration of the batch loop observes about a file: the
single-file converter returned `True`, returned `False`, or an exception
escaped the per-file handling (src/main.py lines 221-227; unreachable for
`convert_png_to_ico` itself, which absorbs its exceptions, but present in
the code for the surrounding path manipulation). -/
inductive ConvOutcome where
  | ok (output : String)
  | ko
  | raised (msg : String)

/-- Per-file status recorded in the batch report. -/
inductive FStatus where
  | success
  | failed
deriving DecidableEq, Repr

/-- One entry of the batch report's `details` list (src/main.py lines
208-227). -/
structure FileDetail where
  file : String
  status : FStatus
  output : Option String
  error : Option String
deriving DecidableEq, Repr

/-- The aggregate batch report (src/main.py lines 183-188; spec section
3, BatchResult). -/
structure BatchResult where
  total : Nat
  successful : Nat
  failed : Nat
  details : List FileDetail
deriving DecidableEq, Repr

/-- The detail entry appended for one file (src/main.py lines 208-212,
215-219, 223-227). -/
def detailOf (file : String) : ConvOutcome → FileDetail
  | ConvOutcome.ok out => ⟨file, FStatus.success, some out, none⟩
  | ConvOutcome.ko => ⟨file, FStatus.failed, none, some "Conversion failed"⟩
  | ConvOutcome.raised m => ⟨file, FStatus.failed, none, some m⟩

/-- The counter-and-details update one loop iteration performs
(src/main.py lines 206-227). -/
def applyOutcome (r : BatchResult) (file : String) (o : ConvOutcome) : BatchResult :=
  match o with
  | ConvOutcome.ok out =>
      { r with successful := r.successful + 1,
               details := r.details ++ [detailOf file (ConvOutcome.ok out)] }
  | ConvOutcome.ko =>
      { r with failed := r.failed + 1,
               details := r.details ++ [detailOf file ConvOutcome.ko] }
  | ConvOutcome.raised m =>
      { r with failed := r.failed + 1,
               details := r.details ++ [detailOf file (ConvOutcome.raised m)] }

/-- The progress value reported after the file at index `i` of `n`
(src/main.py line 231): `(i + 1) / len(input_files) * 100`. -/
def progressAt (n i : Nat) : ℚ := ((i : ℚ) + 1) / (n : ℚ) * 100

/-- The `for i, input_file in enumerate(input_files)` loop of
`batch_convert` (src/main.py lines 193-232), threading the report and the
sequence of progress values passed to the callback.  The progress value
is computed and emitted only inside an iteration, after that file's
outcome has been recorded, mirroring lines 229-232. -/
def batchLoop (conv : String → ConvOutcome) (n : Nat) :
    Nat → List String → BatchResult × List ℚ → BatchResult × List ℚ
  | _, [], acc => acc
  | i, file :: rest, acc =>
      batchLoop conv n (i + 1) rest
        (applyOutcome acc.1 file (conv file), acc.2 ++ [progressAt n i])

/-- The function `ImageConverter.batch_convert` (src/main.py lines
169-234),
parameterized by the per-file outcome function (the call to
`convert_png_to_ico` plus the surrounding path derivation, lines
195-204).  Returns the aggregate report together with the sequence of
progress percentages passed to the callback, in order. -/
def batch_convert (conv : String → ConvOutcome) (input_files : List String) :
    BatchResult × List ℚ :=
  batchLoop conv input_files.length 0 input_files
    (⟨input_files.length, 0, 0, []⟩, [])

/-! ## Concrete fixtures used by witnesses and counterexamples -/

/-- A 2×2 opaque RGBA source image. -/
def imgA : Img := ⟨2, 2, Mode.RGBA, fun _ _ => ⟨0, 0, 0, 255⟩⟩

/-- A 1×2 (taller than wide) RGB source image. -/
def imgB : Img := ⟨1, 2, Mode.RGB, fun _ _ => ⟨5, 6, 7, 8⟩⟩

/-- A 100×1 source image whose aspect ratio is extreme enough that the
scaled height truncates to zero for target edge 16. -/
def imgC : Img := ⟨100, 1, Mode.RGBA, fun _ _ => ⟨9, 9, 9, 255⟩⟩

/-- A filesystem holding a single PNG file and nothing else. -/
def fsA : FS := fun p => if p = "in.png" then some (Entry.image "PNG" imgA) else none

/-- A filesystem holding a PNG input and a pre-existing (non-ICO) file at
the output path. -/
def fsB : FS := fun p =>
  if p = "a.png" then some (Entry.image "PNG" imgA)
  else if p = "a.ico" then some (Entry.nonImage [7]) else none

/-! ## The dimension formula over the naturals -/

/-- The truncating division in `resizeDims` agrees with natural-number
division of the cross products: for `W > H` the scaled height is
`S * H / W`, otherwise the scaled width is `S * W / H`. -/
lemma resizeDims_eq_div (W H S : Nat) (hW : 0 < W) (hH : 0 < H) :
    resizeDims W H S = if H < W then (S, S * H / W) else (S * W / H, S) := by
  have hH' : (0 : ℚ) < (H : ℚ) := by exact_mod_cast hH
  have har : ((1 : ℚ) < (W : ℚ) / (H : ℚ)) ↔ H < W := by
    rw [one_lt_div hH']
    exact Nat.cast_lt
  unfold resizeDims
  by_cases h : H < W
  · rw [if_pos (har.mpr h), if_pos h]
    have hq : (S : ℚ) / ((W : ℚ) / (H : ℚ)) = ((S * H : ℕ) : ℚ) / ((W : ℕ) : ℚ) := by
      rw [div_div_eq_mul_div]
      push_cast
      ring
    rw [hq, Nat.floor_div_nat, Nat.floor_natCast]
  · rw [if_neg (fun hc => h (har.mp hc)), if_neg h]
    have hq : (S : ℚ) * ((W : ℚ) / (H : ℚ)) = ((S * W : ℕ) : ℚ) / ((H : ℕ) : ℚ) := by
      push_cast
      ring
    rw [hq, Nat.floor_div_nat, Nat.floor_natCast]

/-- Truncation toward zero of a nonnegative double never exceeds its
nearest-integer rounding. -/
lemma FP.truncNat_le_roundNat (x : FP) : x.truncNat ≤ x.roundNat := by
  rcases x with ⟨m, e⟩
  cases e with
  | ofNat k => simp [FP.truncNat, FP.roundNat]
  | negSucc k =>
      simp only [FP.truncNat, FP.roundNat]
      exact Nat.div_le_div_right (Nat.le_add_right m (2 ^ k))

/-! ## Structural lemmas about the resize transform -/

lemma ensureRGBA_width (img : Img) : (ensureRGBA img).width = img.width := by
  unfold ensureRGBA
  split <;> rfl

lemma ensureRGBA_height (img : Img) : (ensureRGBA img).height = img.height := by
  unfold ensureRGBA
  split <;> rfl

lemma resize_image_width (img : Img) (S : Nat) : (resize_image img S).width = S := rfl

lemma resize_image_height (img : Img) (S : Nat) : (resize_image img S).height = S := rfl

lemma resize_image_mode (img : Img) (S : Nat) : (resize_image img S).mode = Mode.RGBA := rfl

/-- Pixels of the square canvas that lie outside the composited rectangle
keep the transparent background they were initialized with. -/
lemma resize_image_px_outside (img : Img) (S x y : Nat)
    (h : ¬ pasteRegion S (resizeDims img.width img.height S).1
        (resizeDims img.width img.height S).2 x y) :
    (resize_image img S).px x y = Pixel.clear := by
  simp only [resize_image, Img.paste, Img.new, Img.resizeTo]
  rw [if_neg h]

/-! ## Batch loop invariants -/

lemma applyOutcome_total (r : BatchResult) (f : String) (o : ConvOutcome) :
    (applyOutcome r f o).total = r.total := by
  cases o <;> rfl

lemma applyOutcome_counts (r : BatchResult) (f : String) (o : ConvOutcome) :
    (applyOutcome r f o).successful + (applyOutcome r f o).failed
      = r.successful + r.failed + 1 := by
  cases o <;> simp [applyOutcome] <;> omega

lemma applyOutcome_details (r : BatchResult) (f : String) (o : ConvOutcome) :
    (applyOutcome r f o).details = r.details ++ [detailOf f o] := by
  cases o <;> rfl

lemma batchLoop_fst (conv : String → ConvOutcome) (n : Nat) (l : List String) :
    ∀ (i : Nat) (acc : BatchResult × List ℚ),
      (batchLoop conv n i l acc).1.total = acc.1.total ∧
      (batchLoop conv n i l acc).1.successful + (batchLoop conv n i l acc).1.failed
        = acc.1.successful + acc.1.failed + l.length ∧
      (batchLoop conv n i l acc).1.details
        = acc.1.details ++ l.map (fun f => detailOf f (conv f)) := by
  induction l with
  | nil =>
      intro i acc
      simp [batchLoop]
  | cons file rest ih =>
      intro i acc
      obtain ⟨h1, h2, h3⟩ :=
        ih (i + 1) (applyOutcome acc.1 file (conv file), acc.2 ++ [progressAt n i])
      refine ⟨?_, ?_, ?_⟩
      · simp only [batchLoop]
        rw [h1, applyOutcome_total]
      · simp only [batchLoop]
        rw [h2, applyOutcome_counts]
        simp [Nat.add_assoc, Nat.add_comm, Nat.add_left_comm]
      · simp only [batchLoop]
        rw [h3, applyOutcome_details]
        simp

lemma batchLoop_snd (conv : String → ConvOutcome) (n : Nat) (l : List String) :
    ∀ (i : Nat) (acc : BatchResult × List ℚ),
      (batchLoop conv n i l acc).2
        = acc.2 ++ (List.range l.length).map (fun j => progressAt n (i + j)) := by
  induction l with
  | nil =>
      intro i acc
      simp [batchLoop]
  | cons file rest ih =>
      intro i acc
      simp only [batchLoop]
      rw [ih (i + 1) (applyOutcome acc.1 file (conv file), acc.2 ++ [progressAt n i])]
      have hfun : (fun j => progressAt n (i + 1 + j))
          = ((fun j => progressAt n (i + j)) ∘ Nat.succ) :=
        funext fun j => congrArg (progressAt n) (by omega)
      rw [List.length_cons, List.range_succ_eq_map, List.map_cons, List.map_map,
        List.append_assoc, List.singleton_append, ← hfun]
      simp

lemma progressAt_le (n i j : Nat) (hn : 0 < n) (h : i ≤ j) :
    progressAt n i ≤ progressAt n j := by
  unfold progressAt
  have hn' : (0 : ℚ) < (n : ℚ) := by exact_mod_cast hn
  have hij : ((i : ℚ) + 1) ≤ ((j : ℚ) + 1) := by
    have : (i : ℚ) ≤ (j : ℚ) := by exact_mod_cast h
    linarith
  have hdiv := (div_le_div_iff_of_pos_right hn').mpr hij
  nlinarith

lemma progressAt_last (n : Nat) (hn : 0 < n) : progressAt n (n - 1) = 100 := by
  unfold progressAt
  have h1 : ((n - 1 : ℕ) : ℚ) + 1 = (n : ℚ) := by
    have h : (1 : ℕ) ≤ n := hn
    push_cast [Nat.cast_sub h]
    ring
  rw [h1, div_self (by exact_mod_cast hn.ne' : (n : ℚ) ≠ 0), one_mul]

lemma batch_trace_eq (conv : String → ConvOutcome) (files : List String) :
    (batch_convert conv files).2
      = (List.range files.length).map (fun j => progressAt files.length j) := by
  unfold batch_convert
  rw [batchLoop_snd]
  simp

/-! ## Claim theorems: batch conversion -/

/-- C3: for every input list and every per-file outcome, the batch report
satisfies `total = successful + failed = details.length`, with exactly one
detail entry per input file in input order (so no file's failure prevents
the remaining files from being attempted — every input contributes its
entry). -/
theorem batch_result_invariant (conv : String → ConvOutcome) (files : List String) :
    (batch_convert conv files).1.total
        = (batch_convert conv files).1.successful + (batch_convert conv files).1.failed ∧
    (batch_convert conv files).1.total = (batch_convert conv files).1.details.length ∧
    (batch_convert conv files).1.details = files.map (fun f => detailOf f (conv f)) := by
  obtain ⟨h1, h2, h3⟩ :=
    batchLoop_fst conv files.length files 0 (⟨files.length, 0, 0, []⟩, [])
  unfold batch_convert
  simp only at h1 h2 h3
  rw [List.nil_append] at h3
  refine ⟨?_, ?_, h3⟩
  · rw [h1, h2]
    simp
  · rw [h1, h3]
    simp

/-- C4: with at least one input file, the progress callback is invoked
exactly once per input file, the value passed after the file at index `i`
is `(i + 1) / n * 100`, the sequence of values is monotonically
non-decreasing, and the last value is exactly `100`. -/
theorem batch_progress_once_per_file_to_100 (conv : String → ConvOutcome)
    (files : List String) (hne : files ≠ []) :
    (batch_convert conv files).2.length = files.length ∧
    (∀ i, i < files.length →
      (batch_convert conv files).2[i]?
        = some (((i : ℚ) + 1) / (files.length : ℚ) * 100)) ∧
    (∀ i j (hi : i < (batch_convert conv files).2.length)
        (hj : j < (batch_convert conv files).2.length), i ≤ j →
      (batch_convert conv files).2.get ⟨i, hi⟩ ≤ (batch_convert conv files).2.get ⟨j, hj⟩) ∧
    (batch_convert conv files).2.getLast? = some 100 := by
  have htr := batch_trace_eq conv files
  have hn : 0 < files.length := List.length_pos.mpr hne
  refine ⟨?_, ?_, ?_, ?_⟩
  · rw [htr]
    simp
  · intro i hi
    rw [htr, List.getElem?_map, List.getElem?_range hi]
    simp [progressAt]
  · intro i j hi hj hij
    rw [htr] at hi hj
    simp only [List.length_map, List.length_range] at hi hj
    simp only [htr, List.get_eq_getElem, List.getElem_map, List.getElem_range]
    exact progressAt_le files.length i j hn hij
  · rw [htr]
    have hsplit : List.range files.length
        = List.range (files.length - 1) ++ [files.length - 1] := by
      conv_lhs => rw [show files.length = (files.length - 1) + 1 by omega]
      simp [List.range_succ]
    rw [hsplit, List.map_append, List.map_cons, List.map_nil, List.getLast?_concat,
      progressAt_last files.length hn]

/-- C10: batch conversion over the empty input list returns the report
`{total := 0, successful := 0, failed := 0, details := []}` and an empty
progress trace: the callback is never invoked and the per-file percentage
expression (whose denominator would be `0`) is never evaluated, since it
is computed only inside the loop body. -/
theorem batch_convert_empty (conv : String → ConvOutcome) :
    batch_convert conv [] = (⟨0, 0, 0, []⟩, []) := rfl

/-! ## Claim theorems: the resize transform -/

/-- C1 (amended): the scaled dimensions are computed with Python `int()`
truncation of the double-precision ratio, not nearest-integer rounding.
The code's formula and the spec's formula, evaluated over the same
double-precision pipeline, select the same branch and pin the same major
dimension to `S`, and differ only in the final step: the code's
truncated minor dimension never exceeds — and can fall strictly below —
the spec's rounded one. -/
theorem resize_dims_truncates_not_rounds (W H S : Nat) :
    (resizeDimsFloat W H S).1 ≤ (resizeDimsFloatRounded W H S).1 ∧
    (resizeDimsFloat W H S).2 ≤ (resizeDimsFloatRounded W H S).2 ∧
    ((FP.div (FP.ofNat W) (FP.ofNat H)).gtOne = true →
      (resizeDimsFloat W H S).1 = S ∧ (resizeDimsFloatRounded W H S).1 = S) ∧
    ((FP.div (FP.ofNat W) (FP.ofNat H)).gtOne = false →
      (resizeDimsFloat W H S).2 = S ∧ (resizeDimsFloatRounded W H S).2 = S) := by
  unfold resizeDimsFloat resizeDimsFloatRounded
  by_cases hb : (FP.div (FP.ofNat W) (FP.ofNat H)).gtOne = true
  · simp [hb, FP.truncNat_le_roundNat]
  · rw [Bool.not_eq_true] at hb
    simp [hb, FP.truncNat_le_roundNat]

/-- Witness for C1's amended theorem at `W = 3`, `H = 2`, `S = 16` (a
wide source, discharging the branch hypothesis). -/
theorem resize_dims_truncates_not_rounds_witness :
    (resizeDimsFloat 3 2 16).1 ≤ (resizeDimsFloatRounded 3 2 16).1 ∧
    (resizeDimsFloat 3 2 16).2 ≤ (resizeDimsFloatRounded 3 2 16).2 ∧
    (resizeDimsFloat 3 2 16).1 = 16 ∧ (resizeDimsFloatRounded 3 2 16).1 = 16 := by
  obtain ⟨h1, h2, h3, _h4⟩ := resize_dims_truncates_not_rounds 3 2 16
  obtain ⟨ha, hb⟩ := h3 (by decide)
  exact ⟨h1, h2, ha, hb⟩

/-- C1 counterexample: at `W = 3`, `H = 2`, `S = 16` the program's
formula — truncation of the double-precision quotient — yields height
`int(16 / 1.5) = 10`, while nearest-integer rounding of the same
quotient yields 11.  The bit-accurate model also reproduces the
double-rounding-sensitive input `W = 128`, `H = 93`, `S = 128`, where the
program computes 92 (the exact-rational floor would be 93). -/
theorem resize_dims_round_counterexample :
    resizeDimsFloat 3 2 16 = (16, 10) ∧
    resizeDimsFloatRounded 3 2 16 = (16, 11) ∧
    resizeDimsFloat 3 2 16 ≠ resizeDimsFloatRounded 3 2 16 ∧
    resizeDimsFloat 128 93 128 = (128, 92) ∧
    resizeDimsFloatRounded 128 93 128 = (128, 93) := by decide

/-- C2: for every source image and target edge `S`, the resize transform
(on the RGBA-coerced source, src/main.py lines 96-97 and 133-167)
produces an image of exactly `S×S` pixels in RGBA mode, and every canvas
pixel outside the composited rectangle retains the fully transparent
background it was initialized with. -/
theorem resize_to_square_rgba (img : Img) (S : Nat) :
    (resize_image (ensureRGBA img) S).width = S ∧
    (resize_image (ensureRGBA img) S).height = S ∧
    (resize_image (ensureRGBA img) S).mode = Mode.RGBA ∧
    (∀ x y, ¬ pasteRegion S (resizeDims img.width img.height S).1
        (resizeDims img.width img.height S).2 x y →
      (resize_image (ensureRGBA img) S).px x y = Pixel.clear) := by
  refine ⟨rfl, rfl, rfl, ?_⟩
  intro x y h
  apply resize_image_px_outside
  rwa [ensureRGBA_width, ensureRGBA_height]

/-- Witness for C2 at a concrete 1×2 RGB source resized to edge 4 (the
canvas pixel (0,0) lies left of the composited rectangle). -/
theorem resize_to_square_rgba_witness :
    (resize_image (ensureRGBA imgB) 4).width = 4 ∧
    (resize_image (ensureRGBA imgB) 4).height = 4 ∧
    (resize_image (ensureRGBA imgB) 4).mode = Mode.RGBA ∧
    (resize_image (ensureRGBA imgB) 4).px 0 0 = Pixel.clear := by
  obtain ⟨h1, h2, h3, h4⟩ := resize_to_square_rgba imgB 4
  refine ⟨h1, h2, h3, h4 0 0 ?_⟩
  show ¬ pasteRegion 4 (resizeDims 1 2 4).1 (resizeDims 1 2 4).2 0 0
  rw [resizeDims_eq_div 1 2 4 (by decide) (by decide)]
  decide

/-- C8: a wide source (`W > H ≥ 1`) resized to positive edge `S` pins the
width to `S`, scales the height strictly below `S`, and the vertical
offsets of src/main.py lines 163-165 leave top padding `(S - newH) / 2`
and bottom padding `S - newH - (S - newH) / 2` differing by at most one
pixel. -/
theorem wide_source_padding (W H S : Nat) (hH : 0 < H) (hWH : H < W) (hS : 0 < S) :
    (resizeDims W H S).1 = S ∧
    (resizeDims W H S).2 < S ∧
    (S - (resizeDims W H S).2) / 2
        ≤ S - (resizeDims W H S).2 - (S - (resizeDims W H S).2) / 2 ∧
    S - (resizeDims W H S).2 - (S - (resizeDims W H S).2) / 2
        ≤ (S - (resizeDims W H S).2) / 2 + 1 := by
  have hW : 0 < W := hH.trans hWH
  have hd : resizeDims W H S = (S, S * H / W) := by
    rw [resizeDims_eq_div W H S hW hH, if_pos hWH]
  have hlt : S * H / W < S := by
    rw [Nat.div_lt_iff_lt_mul hW]
    exact mul_lt_mul_of_pos_left hWH hS
  rw [hd]
  obtain ⟨q, hq⟩ : ∃ q, S * H / W = q := ⟨_, rfl⟩
  rw [hq] at hlt
  dsimp only
  rw [hq]
  refine ⟨rfl, hlt, ?_, ?_⟩ <;> omega

/-- Witness for C8 at `W = 3`, `H = 2`, `S = 16`. -/
theorem wide_source_padding_witness :
    (resizeDims 3 2 16).1 = 16 ∧
    (resizeDims 3 2 16).2 < 16 ∧
    (16 - (resizeDims 3 2 16).2) / 2
        ≤ 16 - (resizeDims 3 2 16).2 - (16 - (resizeDims 3 2 16).2) / 2 ∧
    16 - (resizeDims 3 2 16).2 - (16 - (resizeDims 3 2 16).2) / 2
        ≤ (16 - (resizeDims 3 2 16).2) / 2 + 1 :=
  wide_source_padding 3 2 16 (by decide) (by decide) (by decide)

/-- C9: a source so wide that the scaled height truncates to zero
(`W > S·H`) still yields, without error, an `S×S` RGBA canvas that is
fully transparent: the composited rectangle is empty, so every pixel
keeps the transparent background. -/
theorem extreme_aspect_transparent (img : Img) (S : Nat)
    (hH : 0 < img.height) (hS : 0 < S) (hx : S * img.height < img.width) :
    (resize_image img S).width = S ∧
    (resize_image img S).height = S ∧
    (resize_image img S).mode = Mode.RGBA ∧
    ∀ x y, (resize_image img S).px x y = Pixel.clear := by
  have hW : 0 < img.width := lt_of_le_of_lt (Nat.zero_le _) hx
  have hHW : img.height < img.width := by
    have h := Nat.le_mul_of_pos_left img.height hS
    omega
  have hd : resizeDims img.width img.height S = (S, 0) := by
    rw [resizeDims_eq_div _ _ _ hW hH, if_pos hHW, Nat.div_eq_of_lt hx]
  refine ⟨rfl, rfl, rfl, ?_⟩
  intro x y
  apply resize_image_px_outside
  rw [hd]
  dsimp only [pasteRegion]
  omega

/-- Witness for C9 at the 100×1 source resized to edge 16. -/
theorem extreme_aspect_transparent_witness :
    (resize_image imgC 16).width = 16 ∧
    (resize_image imgC 16).height = 16 ∧
    (resize_image imgC 16).mode = Mode.RGBA ∧
    (resize_image imgC 16).px 0 0 = Pixel.clear := by
  obtain ⟨h1, h2, h3, h4⟩ :=
    extreme_aspect_transparent imgC 16 (by decide) (by decide) (by decide)
  exact ⟨h1, h2, h3, h4 0 0⟩

/-! ## Claim theorems: single-file conversion -/

/-- C5: `convert_png_to_ico` is a total boolean-returning function — every
error kind (missing input, unreadable input, non-PNG input, existing
output without overwrite, or a save-time I/O failure) ends in an absorbed
`false` return.  Success is therefore characterized exactly: the function
returns `true` iff the input opens as a PNG, the overwrite check passes,
and the save succeeds. -/
theorem convert_success_iff (fs : FS) (saveOk : Bool) (cfg_sizes : List Nat)
    (input_path : String) (output_path : Option String)
    (sizes : Option (List Nat)) (overwrite : Bool) :
    (convert_png_to_ico fs saveOk cfg_sizes input_path output_path sizes overwrite).ok
        = true ↔
      ((∃ img, fs input_path = some (Entry.image "PNG" img)) ∧
        ¬ ((fs (resolvedOut input_path output_path)).isSome ∧ overwrite = false) ∧
        saveOk = true) := by
  unfold convert_png_to_ico
  cases hfi : fs input_path with
  | none => simp
  | some e =>
    cases e with
    | nonImage d => simp
    | ico l => simp
    | image fmt img =>
      by_cases hfmt : fmt = "PNG"
      · subst hfmt
        by_cases hout : (fs (resolvedOut input_path output_path)).isSome ∧ overwrite = false
        · simp [hout]
        · by_cases hsave : saveOk
          · simp [hout, hsave]
          · simp [hout, hsave]
      · simp [hfmt]

/-- C6: if the resolved output path already exists and overwrite is
disallowed, the conversion fails and performs no write at all — the
filesystem afterwards is identical, so the existing output file's
contents are untouched. -/
theorem convert_existing_output_unchanged (fs : FS) (saveOk : Bool)
    (cfg_sizes : List Nat) (input_path : String) (output_path : Option String)
    (sizes : Option (List Nat)) (overwrite : Bool)
    (hex : (fs (resolvedOut input_path output_path)).isSome = true)
    (hov : overwrite = false) :
    (convert_png_to_ico fs saveOk cfg_sizes input_path output_path sizes overwrite).ok
        = false ∧
    (convert_png_to_ico fs saveOk cfg_sizes input_path output_path sizes overwrite).fs
        = fs := by
  unfold convert_png_to_ico
  cases hfi : fs input_path with
  | none => exact ⟨rfl, rfl⟩
  | some e =>
    cases e with
    | nonImage d => exact ⟨rfl, rfl⟩
    | ico l => exact ⟨rfl, rfl⟩
    | image fmt img =>
      by_cases hfmt : fmt = "PNG"
      · subst hfmt
        simp [hex, hov]
      · simp [hfmt]

/-- Witness for C6: a PNG input with a pre-existing file at the output
path and `overwrite = false`. -/
theorem convert_existing_output_unchanged_witness :
    (convert_png_to_ico fsB true [16] "a.png" (some "a.ico") none false).ok = false ∧
    (convert_png_to_ico fsB true [16] "a.png" (some "a.ico") none false).fs = fsB :=
  convert_existing_output_unchanged fsB true [16] "a.png" (some "a.ico") none false
    (by decide) rfl

/-- C7 (amended): no positivity validation is performed on the size list:
whenever the input opens as a PNG and the overwrite check passes, the
whole resolved size list — including any non-positive entries — is passed
to the resize transform. -/
theorem sizes_reach_resize_unvalidated (fs : FS) (saveOk : Bool)
    (cfg_sizes : List Nat) (input_path : String) (output_path : Option String)
    (sizes : Option (List Nat)) (overwrite : Bool) (img : Img)
    (hin : fs input_path = some (Entry.image "PNG" img))
    (hout : ¬ ((fs (resolvedOut input_path output_path)).isSome ∧ overwrite = false)) :
    (convert_png_to_ico fs saveOk cfg_sizes input_path output_path sizes
        overwrite).resizedSizes
      = sizes.getD cfg_sizes := by
  unfold convert_png_to_ico
  rw [hin]
  by_cases hsave : saveOk <;> simp [hout, hsave]

/-- Witness for C7's amended theorem: the explicit size list `[0]` reaches
the resize transform in full. -/
theorem sizes_reach_resize_unvalidated_witness :
    (convert_png_to_ico fsA true [] "in.png" (some "out.ico") (some [0])
        false).resizedSizes
      = (some [0]).getD [] :=
  sizes_reach_resize_unvalidated fsA true [] "in.png" (some "out.ico") (some [0])
    false imgA rfl (by decide)

/-- C7 counterexample: with a valid PNG input, a fresh output path and the
size list `[0]`, the non-positive size `0` reaches the resize transform —
so it is not the case that every size reaching the transform is
positive. -/
theorem nonpositive_size_reaches_resize :
    ¬ (∀ s ∈ (convert_png_to_ico fsA true [] "in.png" (some "out.ico") (some [0])
          false).resizedSizes, 0 < s) := by
  intro h
  have h0 : (convert_png_to_ico fsA true [] "in.png" (some "out.ico") (some [0])
      false).resizedSizes = [0] := rfl
  rw [h0] at h
  exact absurd (h 0 (by simp)) (by decide)

/-- Witness for C4 at a concrete batch of two files. -/
theorem batch_progress_once_per_file_to_100_witness :
    (batch_convert (fun _ => ConvOutcome.ko) ["a", "b"]).2.length
        = (["a", "b"] : List String).length ∧
    (∀ i, i < (["a", "b"] : List String).length →
      (batch_convert (fun _ => ConvOutcome.ko) ["a", "b"]).2[i]?
        = some (((i : ℚ) + 1) / ((["a", "b"] : List String).length : ℚ) * 100)) ∧
    (∀ i j (hi : i < (batch_convert (fun _ => ConvOutcome.ko) ["a", "b"]).2.length)
        (hj : j < (batch_convert (fun _ => ConvOutcome.ko) ["a", "b"]).2.length), i ≤ j →
      (batch_convert (fun _ => ConvOutcome.ko) ["a", "b"]).2.get ⟨i, hi⟩
        ≤ (batch_convert (fun _ => ConvOutcome.ko) ["a", "b"]).2.get ⟨j, hj⟩) ∧
    (batch_convert (fun _ => ConvOutcome.ko) ["a", "b"]).2.getLast? = some 100 :=
  batch_progress_once_per_file_to_100 (fun _ => ConvOutcome.ko) ["a", "b"]
    (List.cons_ne_nil _ _)

end Png2Ico
